import Mathlib

/-!
Verification development for a small C-like language front end and
tree-walking interpreter (source files: src/token.rs, src/ast.rs,
src/main.rs).  The data model and the evaluator are translated from
src/ast.rs; the token type from src/token.rs.  Machine integers (Rust
i32 / u32) are modelled as Lean Int / Nat with explicit two's-complement
wrapping at the 32-bit width.  Rust panics are modelled as values of the
RunError type; potential nontermination of the recursive evaluator is
modelled with a fuel parameter (a result of none means the fuel was
exhausted, never a program outcome).
-/

/-- Tokens, from src/token.rs (enum Token).  Source spans are omitted:
no claim under verification mentions spans. -/
inductive Token where
  | Return
  | Struct
  | Op (c : Char)
  | Ident (s : String)
  | Ctrl (c : Char)
  | Num (s : String)
deriving DecidableEq, BEq, Repr

/-- Expressions, from src/ast.rs (enum Expr).  The u32 payload of Int is
modelled as Nat; the parser and the decoder only ever produce values
below 2^32. -/
inductive Expr where
  | Err
  | Int (value : Nat)
  | Neg (e : Expr)
  | Mul (lhs rhs : Expr)
  | Div (lhs rhs : Expr)
  | Add (lhs rhs : Expr)
  | Sub (lhs rhs : Expr)
  | Var (name : String)
  | Call (name : String) (params : List Expr)

/-- Statements, from src/ast.rs (enum Statement). -/
inductive Statement where
  | Invalid
  | Return (e : Expr)
  | Assign (ty : String) (name : String) (e : Expr)

/-- Parameters, from src/ast.rs (struct Param). -/
structure Param where
  name : String
  ty : String

/-- Function definitions, from src/ast.rs (struct Func). -/
structure Func where
  name : String
  params : List Param
  ret : String
  body : List Statement

/-- Top-level definitions, from src/ast.rs (enum Definition). -/
inductive Definition where
  | Struct (name : String) (params : List Param)
  | Func (f : Func)

/-- The program, from src/ast.rs (struct Ast). -/
structure Ast where
  defs : List Definition

/-- The fatal failures (Rust panics) of the evaluator, one constructor
per panic site in src/ast.rs. -/
inductive RunError where
  | dupFunc (name : String)
  | noMain
  | noReturn
  | invalidStmt
  | invalidExpr
  | undeclaredVar (name : String)
  | unknownFunc (name : String)
  | divByZero
  | divOverflow
deriving DecidableEq, Repr

/-- A local scope: the ordered list of (name, value) bindings of one
function invocation (Rust Vec<(String, i32)>, push appends at the end). -/
abbrev Vars := List (String × Int)

/-- The global function table (Rust HashMap<String, Func>; modelled as an
association list whose keys are kept unique by the load step). -/
abbrev Funcs := List (String × Func)

/-- Evaluation outcome: none = fuel exhausted (models nontermination),
some (.error e) = Rust panic, some (.ok v) = value. -/
abbrev EvalRes := Option (Except RunError Int)

/-- Two's-complement wrap to signed 32 bits (the behavior of Rust i32
arithmetic in release builds). -/
def wrap32 (x : Int) : Int := (x + 2147483648) % 4294967296 - 2147483648

/-- The Rust cast `value as u32 as i32` used in the Int arm of
Expr::eval: reinterpret an unsigned 32-bit value as signed. -/
def u32ToI32 (v : Nat) : Int := wrap32 (v : Int)

/-- Variable lookup, from the Var arm of Expr::eval (src/ast.rs):
`vars.iter().rev().find(|(vname, _)| vname == name)` scans from the most
recently appended binding backward. -/
def lookupVar (vars : Vars) (name : String) : Option (String × Int) :=
  vars.reverse.find? (fun p => p.1 == name)

/-- Function-table lookup (Rust HashMap::get, on a table with unique
keys). -/
def findFunc (funcs : Funcs) (name : String) : Option (String × Func) :=
  funcs.find? (fun p => p.1 == name)

/-- Argument evaluation of the Call arm of Expr::eval (src/ast.rs):
`for (expr, param) in params.iter().zip(func.params.iter())` — the zip
stops at the shorter list, each evaluated argument is pushed with its
parameter's name.  Parameterized by the expression evaluator eE. -/
def evalArgsWith (eE : Expr → Vars → EvalRes) :
    List Expr → List Param → Vars → Option (Except RunError Vars)
  | [], _, _ => some (.ok [])
  | _ :: _, [], _ => some (.ok [])
  | e :: es, p :: ps, vars =>
    match eE e vars with
    | none => none
    | some (.error er) => some (.error er)
    | some (.ok v) =>
      match evalArgsWith eE es ps vars with
      | none => none
      | some (.error er) => some (.error er)
      | some (.ok rest) => some (.ok ((p.name, v) :: rest))

/-- Statement::eval (src/ast.rs).  Returns the updated scope and, for
Return, the returned value. -/
def evalStmtWith (eE : Expr → Vars → EvalRes) :
    Statement → Vars → Option (Except RunError (Vars × Option Int))
  | .Invalid, _ => some (.error .invalidStmt)
  | .Return e, vars =>
    match eE e vars with
    | none => none
    | some (.error er) => some (.error er)
    | some (.ok v) => some (.ok (vars, some v))
  | .Assign _ty name e, vars =>
    match eE e vars with
    | none => none
    | some (.error er) => some (.error er)
    | some (.ok v) => some (.ok (vars ++ [(name, v)], none))

/-- Func::eval (src/ast.rs): execute the body statements in order; a
Return yields the function's result; falling off the end is the
"reached end of function with no return" panic. -/
def evalFuncWith (eE : Expr → Vars → EvalRes) :
    List Statement → Vars → EvalRes
  | [], _ => some (.error .noReturn)
  | s :: rest, vars =>
    match evalStmtWith eE s vars with
    | none => none
    | some (.error er) => some (.error er)
    | some (.ok (_, some v)) => some (.ok v)
    | some (.ok (vars2, none)) => evalFuncWith eE rest vars2

/-- One unfolding of Expr::eval (src/ast.rs), with `prev` standing for
the evaluator used on subterms.  Arithmetic follows Rust i32 semantics:
Add/Sub/Mul/Neg wrap, Div panics on a zero divisor and on the one
overflowing case -2^31 / -1 (a Rust division panic in every build
profile), otherwise truncates toward zero. -/
def evalExprStep (funcs : Funcs) (prev : Expr → Vars → EvalRes) :
    Expr → Vars → EvalRes := fun e vars =>
  match e with
  | .Err => some (.error .invalidExpr)
  | .Int v => some (.ok (u32ToI32 v))
  | .Neg e1 =>
    match prev e1 vars with
    | none => none
    | some (.error er) => some (.error er)
    | some (.ok v) => some (.ok (wrap32 (-v)))
  | .Add l r =>
    match prev l vars with
    | none => none
    | some (.error er) => some (.error er)
    | some (.ok a) =>
      match prev r vars with
      | none => none
      | some (.error er) => some (.error er)
      | some (.ok b) => some (.ok (wrap32 (a + b)))
  | .Sub l r =>
    match prev l vars with
    | none => none
    | some (.error er) => some (.error er)
    | some (.ok a) =>
      match prev r vars with
      | none => none
      | some (.error er) => some (.error er)
      | some (.ok b) => some (.ok (wrap32 (a - b)))
  | .Mul l r =>
    match prev l vars with
    | none => none
    | some (.error er) => some (.error er)
    | some (.ok a) =>
      match prev r vars with
      | none => none
      | some (.error er) => some (.error er)
      | some (.ok b) => some (.ok (wrap32 (a * b)))
  | .Div l r =>
    match prev l vars with
    | none => none
    | some (.error er) => some (.error er)
    | some (.ok a) =>
      match prev r vars with
      | none => none
      | some (.error er) => some (.error er)
      | some (.ok b) =>
        if b = 0 then some (.error .divByZero)
        else if a = -2147483648 ∧ b = -1 then some (.error .divOverflow)
        else some (.ok (Int.tdiv a b))
  | .Var name =>
    match lookupVar vars name with
    | none => some (.error (.undeclaredVar name))
    | some p => some (.ok p.2)
  | .Call name args =>
    match findFunc funcs name with
    | none => some (.error (.unknownFunc name))
    | some (_, f) =>
      match evalArgsWith prev args f.params vars with
      | none => none
      | some (.error er) => some (.error er)
      | some (.ok fvars) => evalFuncWith prev f.body fvars

/-- Expr::eval (src/ast.rs), with fuel bounding the recursion depth.
The function table is read-only throughout evaluation, exactly as in the
source (it is built once by run_main and never mutated afterward). -/
def evalExpr (funcs : Funcs) : Nat → Expr → Vars → EvalRes
  | 0 => fun _ _ => none
  | fuel + 1 => evalExprStep funcs (evalExpr funcs fuel)

/-- Func::eval at a given fuel: run the body in the given scope. -/
def evalFunc (funcs : Funcs) (fuel : Nat) (f : Func) (vars : Vars) : EvalRes :=
  evalFuncWith (evalExpr funcs fuel) f.body vars

/-- The names of the Func definitions of a program, in declaration
order. -/
def funcNames (defs : List Definition) : List String :=
  defs.filterMap fun d =>
    match d with
    | .Func f => some f.name
    | .Struct _ _ => none

/-- The load loop of Ast::run_main (src/ast.rs): insert each Func into
the table, panicking on a name already present ("Duplicate functions
with name ..."); Struct definitions are skipped. -/
def loadFuncsGo (acc : Funcs) : List Definition → Except RunError Funcs
  | [] => .ok acc
  | .Struct _ _ :: rest => loadFuncsGo acc rest
  | .Func f :: rest =>
    match findFunc acc f.name with
    | some _ => .error (.dupFunc f.name)
    | none => loadFuncsGo (acc ++ [(f.name, f)]) rest

/-- The load step of Ast::run_main. -/
def loadFuncs (defs : List Definition) : Except RunError Funcs :=
  loadFuncsGo [] defs

/-- Ast::run_main (src/ast.rs): load the function table, look up
"main" ("main function not found" panic if absent), and evaluate it
with a fresh empty scope (`&mut Vec::new()`). -/
def run_main (fuel : Nat) (ast : Ast) : EvalRes :=
  match loadFuncs ast.defs with
  | .error e => some (.error e)
  | .ok funcs =>
    match findFunc funcs "main" with
    | none => some (.error .noMain)
    | some (_, mainF) => evalFunc funcs fuel mainF []

/-- Left-to-right sequential evaluation of a list of expressions in one
fixed scope, propagating the first failure: the specification's reading
of "every argument expression is evaluated left-to-right in the caller's
current scope". -/
def evalSeq (eE : Expr → Vars → EvalRes) :
    List Expr → Vars → Option (Except RunError (List Int))
  | [], _ => some (.ok [])
  | e :: es, vars =>
    match eE e vars with
    | none => none
    | some (.error er) => some (.error er)
    | some (.ok v) =>
      match evalSeq eE es vars with
      | none => none
      | some (.error er) => some (.error er)
      | some (.ok vs) => some (.ok (v :: vs))

/-- Replace every function body of a program (the names, parameters and
struct definitions are untouched).  Used to state that load failures
happen before any statement of any body executes. -/
def mapBodies (g : List Statement → List Statement) (ast : Ast) : Ast :=
  ⟨ast.defs.map fun d =>
    match d with
    | .Func f => .Func ⟨f.name, f.params, f.ret, g f.body⟩
    | .Struct n ps => .Struct n ps⟩

/-- The first name of the list that repeats an earlier (or seen) name,
scanning forward. -/
def firstDup (seen : List String) : List String → Option String
  | [] => none
  | n :: rest => if seen.contains n then some n else firstDup (seen ++ [n]) rest

/-!
The parser, from src/ast.rs (chumsky combinators over the token stream).
A parser is a function from the remaining tokens to an optional parse
result with leftover tokens; chumsky's `or` is ordered choice with
backtracking, `repeated` is greedy repetition (bounded here by a fuel
parameter that every concrete use instantiates above the input length).
Spans and error reporting are omitted: the claims under verification
only concern which trees are produced.
-/

/-- A backtracking parser over the token stream. -/
abbrev P (α : Type) := List Token → Option (α × List Token)

/-- The parser that always fails. -/
def pfail {α : Type} : P α := fun _ => none

/-- Apply a function to a parse result (chumsky map). -/
def pmap {α β : Type} (f : α → β) (p : P α) : P β := fun toks =>
  match p toks with
  | none => none
  | some (a, rest) => some (f a, rest)

/-- Consume exactly the given token (chumsky just). -/
def pjust (t : Token) : P Token := fun toks =>
  match toks with
  | t2 :: rest => if t2 == t then some (t2, rest) else none
  | [] => none

/-- Sequencing (chumsky then). -/
def pthen {α β : Type} (p : P α) (q : P β) : P (α × β) := fun toks =>
  match p toks with
  | none => none
  | some (a, rest) =>
    match q rest with
    | none => none
    | some (b, rest2) => some ((a, b), rest2)

/-- Sequencing keeping only the left result (chumsky then_ignore). -/
def pthenIgnore {α β : Type} (p : P α) (q : P β) : P α :=
  pmap Prod.fst (pthen p q)

/-- Sequencing keeping only the right result (chumsky ignore_then). -/
def pignoreThen {α β : Type} (p : P α) (q : P β) : P β :=
  pmap Prod.snd (pthen p q)

/-- Ordered choice with backtracking (chumsky or). -/
def por {α : Type} (p q : P α) : P α := fun toks =>
  match p toks with
  | some r => some r
  | none => q toks

/-- Greedy repetition (chumsky repeated), bounded by fuel. -/
def pmany {α : Type} (p : P α) : Nat → P (List α)
  | 0 => fun toks => some ([], toks)
  | fuel + 1 => fun toks =>
    match p toks with
    | none => some ([], toks)
    | some (a, rest) =>
      match pmany p fuel rest with
      | none => none
      | some (as, rest2) => some (a :: as, rest2)

/-- Separated repetition allowing zero items (chumsky separated_by). -/
def psepBy {α : Type} (p : P α) (sep : Token) (fuel : Nat) : P (List α) :=
  fun toks =>
  match p toks with
  | none => some ([], toks)
  | some (a, rest) =>
    match pmany (pignoreThen (pjust sep) p) fuel rest with
    | none => none
    | some (as, rest2) => some (a :: as, rest2)

/-- A block between delimiters (chumsky delimited_by). -/
def pdelim {α : Type} (o c : Token) (p : P α) : P α :=
  pignoreThen (pjust o) (pthenIgnore p (pjust c))

/-- Skip forward past the matching close delimiter, tracking nesting
depth (the scan of chumsky recovery::nested_delimiters). -/
def skipBalanced (o c : Token) : Nat → List Token → Option (List Token)
  | _, [] => none
  | depth, t :: rest =>
    if t == c then
      if depth ≤ 1 then some rest else skipBalanced o c (depth - 1) rest
    else if t == o then skipBalanced o c (depth + 1) rest
    else skipBalanced o c depth rest

/-- recover_with(recovery::nested_delimiters(o, c, [], default)): if the
delimited parser fails, consume the open delimiter, skip to its matching
close, and yield the fallback value. -/
def precover {α : Type} (o c : Token) (default : α) (p : P α) : P α :=
  por p (fun toks =>
    match toks with
    | t :: rest =>
      if t == o then
        match skipBalanced o c 1 rest with
        | some rem => some (default, rem)
        | none => none
      else none
    | [] => none)

/-- The opening brace control character. -/
def lbrace : Char := Char.ofNat 123

/-- The closing brace control character. -/
def rbrace : Char := Char.ofNat 125

/-- parse_ident (src/ast.rs): accept one Ident token. -/
def parse_ident : P String := fun toks =>
  match toks with
  | .Ident s :: rest => some (s, rest)
  | _ => none

/-- Accumulate the value of a run of decimal digits; any non-digit
character fails. -/
def digitsVal : List Char → Nat → Option Nat
  | [], acc => some acc
  | c :: cs, acc =>
    if c.isDigit then digitsVal cs (acc * 10 + (c.toNat - 48)) else none

/-- The text-to-u32 conversion `value.parse::<u32>()` of the Rust
standard library on a lexer Num token: a nonempty all-digit string below
2^32 (the lexer never emits a leading sign). -/
def parseU32 (s : String) : Option Nat :=
  match s.data with
  | [] => none
  | c :: cs =>
    match digitsVal (c :: cs) 0 with
    | some n => if n < 4294967296 then some n else none
    | none => none

/-- The integer atom of Expr::parser (src/ast.rs):
`Token::Num(value) => Expr::Int(value.parse::<u32>().unwrap())`.  The
unwrap panic on text that is not a valid u32 (a fractional literal, or
one of 2^32 or more) is modelled as a parse failure; no claim under
verification exercises that case. -/
def parseInt : P Expr := fun toks =>
  match toks with
  | .Num s :: rest =>
    match parseU32 s with
    | some n => some (.Int n, rest)
    | none => none
  | _ => none

/-- One level of the recursive expression grammar of Expr::parser
(src/ast.rs): atom (int, parenthesized expression, call — with
nested-delimiter recovery on the argument list — or variable), then
prefix minus folded right into Neg, then left-associative * and /, then
left-associative + and -. -/
def parseExprStep (fuel : Nat) (inner : P Expr) : P Expr :=
  let callArgs := precover (.Ctrl '(') (.Ctrl ')') []
    (pdelim (.Ctrl '(') (.Ctrl ')') (psepBy inner (.Ctrl ',') fuel))
  let call := pmap (fun r => Expr.Call r.1 r.2) (pthen parse_ident callArgs)
  let variableRef := pmap Expr.Var parse_ident
  let atom := por parseInt
    (por (pdelim (.Ctrl '(') (.Ctrl ')') inner) (por call variableRef))
  let unary := pmap (fun r => r.1.foldr (fun _ acc => Expr.Neg acc) r.2)
    (pthen (pmany (pjust (.Op '-')) fuel) atom)
  let mulOp := por (pmap (fun _ => Expr.Mul) (pjust (.Op '*')))
    (pmap (fun _ => Expr.Div) (pjust (.Op '/')))
  let product := pmap (fun r => r.2.foldl (fun lhs oprhs => oprhs.1 lhs oprhs.2) r.1)
    (pthen unary (pmany (pthen mulOp unary) fuel))
  let addOp := por (pmap (fun _ => Expr.Add) (pjust (.Op '+')))
    (pmap (fun _ => Expr.Sub) (pjust (.Op '-')))
  let sum := pmap (fun r => r.2.foldl (fun lhs oprhs => oprhs.1 lhs oprhs.2) r.1)
    (pthen product (pmany (pthen addOp product) fuel))
  sum

/-- Expr::parser (src/ast.rs): the recursive expression grammar, with
fuel bounding the nesting depth. -/
def parseExpr : Nat → P Expr
  | 0 => pfail
  | fuel + 1 => parseExprStep (fuel + 1) (parseExpr fuel)

/-- Statement::parser (src/ast.rs): `return Expr ;` or
`Ident Ident = Expr ;`. -/
def parseStatement (fuel : Nat) : P Statement :=
  let ret := pmap (fun e => Statement.Return e)
    (pthenIgnore (pignoreThen (pjust .Return) (parseExpr fuel))
      (pjust (.Ctrl ';')))
  let assign := pmap (fun r => Statement.Assign r.1.1 r.1.2 r.2)
    (pthenIgnore
      (pthen (pthen parse_ident parse_ident)
        (pignoreThen (pjust (.Op '=')) (parseExpr fuel)))
      (pjust (.Ctrl ';')))
  por ret assign

/-- Param::parser (src/ast.rs): two identifiers, read as (type, name). -/
def parseParam : P Param :=
  pmap (fun r => Param.mk r.2 r.1) (pthen parse_ident parse_ident)

/-- Definition::parser (src/ast.rs): a struct definition or a function
definition, both with nested-delimiter recovery on their bracketed
parts. -/
def parseDefinition (fuel : Nat) : P Definition :=
  let structBody := precover (.Ctrl lbrace) (.Ctrl rbrace) []
    (pdelim (.Ctrl lbrace) (.Ctrl rbrace)
      (pmany (pthenIgnore parseParam (pjust (.Ctrl ';'))) fuel))
  let structP := pmap (fun r => Definition.Struct r.1 r.2)
    (pthenIgnore (pthen (pignoreThen (pjust .Struct) parse_ident) structBody)
      (pjust (.Ctrl ';')))
  let funcParams := precover (.Ctrl '(') (.Ctrl ')') []
    (pdelim (.Ctrl '(') (.Ctrl ')') (psepBy parseParam (.Ctrl ',') fuel))
  let funcBody := precover (.Ctrl lbrace) (.Ctrl rbrace) []
    (pdelim (.Ctrl lbrace) (.Ctrl rbrace) (pmany (parseStatement fuel) fuel))
  let funcP := pmap
    (fun r => Definition.Func (Func.mk r.1.1.2 r.1.2 r.1.1.1 r.2))
    (pthen (pthen (pthen parse_ident parse_ident) funcParams) funcBody)
  por structP funcP

/-- Ast::parser (src/ast.rs): `Definition::parser().repeated().at_least(1)`
— one or more definitions, greedy. -/
def parseAst (fuel : Nat) : P Ast := fun toks =>
  match pmany (parseDefinition fuel) fuel toks with
  | none => none
  | some (defs, rest) =>
    if 1 ≤ defs.length then some (Ast.mk defs, rest) else none

/-!
The serialization boundary.  The build phase (src/main.rs, fn build)
serializes the parsed Ast with serde_json and the run phase (fn run)
deserializes it before calling run_main; the serde derive code itself is
library code outside this repository, so the encoding is modelled from
the spec: a structured, field-named form exposing each variant's fields,
required to round-trip every field exactly.
-/

/-- Modelled from the spec: the structured serialized form of the tree
("it must be representable in a structured, field-named form … so it can
be carried across a serialization boundary").  A JSON-like value; the
numeric payload of Int is carried as a Nat. -/
inductive Json where
  | str (s : String)
  | num (n : Nat)
  | arr (elems : List Json)
  | obj (fields : List (String × Json))

mutual

/-- Modelled from the spec: encode an expression, exposing each
variant's field names (externally tagged variants, as the serde derive
on enum Expr produces). -/
def encodeExpr : Expr → Json
  | .Err => .str "Err"
  | .Int v => .obj [("Int", .num v)]
  | .Neg e => .obj [("Neg", encodeExpr e)]
  | .Mul a b => .obj [("Mul", .arr [encodeExpr a, encodeExpr b])]
  | .Div a b => .obj [("Div", .arr [encodeExpr a, encodeExpr b])]
  | .Add a b => .obj [("Add", .arr [encodeExpr a, encodeExpr b])]
  | .Sub a b => .obj [("Sub", .arr [encodeExpr a, encodeExpr b])]
  | .Var n => .obj [("Var", .str n)]
  | .Call n ps => .obj [("Call", .obj [("name", .str n), ("params", .arr (encodeExprList ps))])]

/-- Modelled from the spec: encode a list of expressions elementwise. -/
def encodeExprList : List Expr → List Json
  | [] => []
  | e :: es => encodeExpr e :: encodeExprList es

end

mutual

/-- Modelled from the spec: decode an expression from the structured
form; inverse of encodeExpr. -/
def decodeExpr : Json → Option Expr
  | .str "Err" => some .Err
  | .obj [("Int", .num v)] => some (.Int v)
  | .obj [("Neg", j)] =>
    match decodeExpr j with
    | some e => some (.Neg e)
    | none => none
  | .obj [("Mul", .arr [a, b])] =>
    match decodeExpr a, decodeExpr b with
    | some x, some y => some (.Mul x y)
    | _, _ => none
  | .obj [("Div", .arr [a, b])] =>
    match decodeExpr a, decodeExpr b with
    | some x, some y => some (.Div x y)
    | _, _ => none
  | .obj [("Add", .arr [a, b])] =>
    match decodeExpr a, decodeExpr b with
    | some x, some y => some (.Add x y)
    | _, _ => none
  | .obj [("Sub", .arr [a, b])] =>
    match decodeExpr a, decodeExpr b with
    | some x, some y => some (.Sub x y)
    | _, _ => none
  | .obj [("Var", .str n)] => some (.Var n)
  | .obj [("Call", .obj [("name", .str n), ("params", .arr ps)])] =>
    match decodeExprList ps with
    | some es => some (.Call n es)
    | none => none
  | _ => none

/-- Modelled from the spec: decode a list of expressions elementwise. -/
def decodeExprList : List Json → Option (List Expr)
  | [] => some []
  | j :: js =>
    match decodeExpr j, decodeExprList js with
    | some e, some es => some (e :: es)
    | _, _ => none

end

/-- Modelled from the spec: encode a statement with its field names. -/
def encodeStatement : Statement → Json
  | .Invalid => .str "Invalid"
  | .Return e => .obj [("Return", encodeExpr e)]
  | .Assign ty name e =>
    .obj [("Assign", .obj [("ty", .str ty), ("name", .str name), ("expr", encodeExpr e)])]

/-- Modelled from the spec: decode a statement; inverse of
encodeStatement. -/
def decodeStatement : Json → Option Statement
  | .str "Invalid" => some .Invalid
  | .obj [("Return", j)] =>
    match decodeExpr j with
    | some e => some (.Return e)
    | none => none
  | .obj [("Assign", .obj [("ty", .str ty), ("name", .str name), ("expr", j)])] =>
    match decodeExpr j with
    | some e => some (.Assign ty name e)
    | none => none
  | _ => none

/-- Modelled from the spec: decode a list of statements elementwise. -/
def decodeStatementList : List Json → Option (List Statement)
  | [] => some []
  | j :: js =>
    match decodeStatement j, decodeStatementList js with
    | some s, some ss => some (s :: ss)
    | _, _ => none

/-- Modelled from the spec: encode a parameter with its field names. -/
def encodeParam (p : Param) : Json :=
  .obj [("name", .str p.name), ("ty", .str p.ty)]

/-- Modelled from the spec: decode a parameter; inverse of encodeParam. -/
def decodeParam : Json → Option Param
  | .obj [("name", .str name), ("ty", .str ty)] => some ⟨name, ty⟩
  | _ => none

/-- Modelled from the spec: decode a list of parameters elementwise. -/
def decodeParamList : List Json → Option (List Param)
  | [] => some []
  | j :: js =>
    match decodeParam j, decodeParamList js with
    | some p, some ps => some (p :: ps)
    | _, _ => none

/-- Modelled from the spec: encode a function definition with its field
names. -/
def encodeFunc (f : Func) : Json :=
  .obj [("name", .str f.name), ("params", .arr (f.params.map encodeParam)),
        ("ret", .str f.ret), ("body", .arr (f.body.map encodeStatement))]

/-- Modelled from the spec: decode a function definition; inverse of
encodeFunc. -/
def decodeFunc : Json → Option Func
  | .obj [("name", .str name), ("params", .arr ps), ("ret", .str ret), ("body", .arr body)] =>
    match decodeParamList ps, decodeStatementList body with
    | some params, some stmts => some ⟨name, params, ret, stmts⟩
    | _, _ => none
  | _ => none

/-- Modelled from the spec: encode a top-level definition with its
variant tag and field names. -/
def encodeDefinition : Definition → Json
  | .Struct name ps =>
    .obj [("Struct", .obj [("name", .str name), ("params", .arr (ps.map encodeParam))])]
  | .Func f => .obj [("Func", encodeFunc f)]

/-- Modelled from the spec: decode a top-level definition; inverse of
encodeDefinition. -/
def decodeDefinition : Json → Option Definition
  | .obj [("Struct", .obj [("name", .str name), ("params", .arr ps)])] =>
    match decodeParamList ps with
    | some params => some (.Struct name params)
    | none => none
  | .obj [("Func", j)] =>
    match decodeFunc j with
    | some f => some (.Func f)
    | none => none
  | _ => none

/-- Modelled from the spec: decode a list of definitions elementwise. -/
def decodeDefinitionList : List Json → Option (List Definition)
  | [] => some []
  | j :: js =>
    match decodeDefinition j, decodeDefinitionList js with
    | some d, some ds => some (d :: ds)
    | _, _ => none

/-- Modelled from the spec: encode a whole program. -/
def encodeAst (ast : Ast) : Json :=
  .obj [("defs", .arr (ast.defs.map encodeDefinition))]

/-- Modelled from the spec: decode a whole program; inverse of
encodeAst. -/
def decodeAst : Json → Option Ast
  | .obj [("defs", .arr ds)] =>
    match decodeDefinitionList ds with
    | some defs => some ⟨defs⟩
    | none => none
  | _ => none

/-!
Concrete sample programs and token streams used by the witnesses and
counterexamples below.
-/

/-- The tree of `2 + 3 * 4`. -/
def expr14 : Expr := .Add (.Int 2) (.Mul (.Int 3) (.Int 4))

/-- The tree of `-2 + 3`. -/
def exprNeg2Plus3 : Expr := .Add (.Neg (.Int 2)) (.Int 3)

/-- The tree of `-(2 + 3)`. -/
def exprNegParen : Expr := .Neg (.Add (.Int 2) (.Int 3))

/-- The token stream of `return 2 + 3 * 4;`. -/
def toksRet14 : List Token :=
  [.Return, .Num "2", .Op '+', .Num "3", .Op '*', .Num "4", .Ctrl ';']

/-- The token stream of `2 + 3 * 4`. -/
def toks14 : List Token := [.Num "2", .Op '+', .Num "3", .Op '*', .Num "4"]

/-- The token stream of `-2 + 3`. -/
def toksNeg2Plus3 : List Token := [.Op '-', .Num "2", .Op '+', .Num "3"]

/-- The token stream of `-(2 + 3)`. -/
def toksNegParen : List Token :=
  [.Op '-', .Ctrl '(', .Num "2", .Op '+', .Num "3", .Ctrl ')']

/-- A zero-parameter function `int f() { return 7; }`. -/
def funcF7 : Func := ⟨"f", [], "int", [.Return (.Int 7)]⟩

/-- A function table holding only funcF7. -/
def tableF7 : Funcs := [("f", funcF7)]

/-- A one-parameter function `int g(int x) { return x; }`. -/
def funcGx : Func := ⟨"g", [⟨"x", "int"⟩], "int", [.Return (.Var "x")]⟩

/-- A function table holding only funcGx. -/
def tableGx : Funcs := [("g", funcGx)]

/-- A program with two Func definitions named "f". -/
def astDupF : Ast :=
  ⟨[.Func ⟨"f", [], "int", [.Return (.Int 1)]⟩,
    .Func ⟨"f", [], "int", [.Return (.Int 2)]⟩]⟩

/-- A program whose only definition is `int f() { return 1; }` (no
main). -/
def astNoMain : Ast := ⟨[.Func ⟨"f", [], "int", [.Return (.Int 1)]⟩]⟩

/-- A program whose main takes one parameter:
`int main(int x) { return 7; }`. -/
def astMainOneParam : Ast :=
  ⟨[.Func ⟨"main", [⟨"x", "int"⟩], "int", [.Return (.Int 7)]⟩]⟩

/-- The program `int main() { return 2 + 3 * 4; }`. -/
def astMain14 : Ast := ⟨[.Func ⟨"main", [], "int", [.Return expr14]⟩]⟩

/-- A one-parameter function whose body never reads its parameter:
`int h(int y) { return 9; }`. -/
def funcH9 : Func := ⟨"h", [⟨"y", "int"⟩], "int", [.Return (.Int 9)]⟩

/-- A function table holding only funcH9. -/
def tableH9 : Funcs := [("h", funcH9)]

/-!
Helper lemmas.
-/

/-- find? skips a prefix on which the predicate fails everywhere. -/
theorem find?_append_of_forall_false {α : Type} (p : α → Bool) (as bs : List α)
    (h : ∀ a ∈ as, p a = false) :
    List.find? p (as ++ bs) = List.find? p bs := by
  rw [List.find?_append, List.find?_eq_none.mpr (fun x hx => by simp [h x hx])]
  rfl

/-- find? fails on a list on which the predicate fails everywhere. -/
theorem find?_eq_none_of_forall_false {α : Type} (p : α → Bool) (as : List α)
    (h : ∀ a ∈ as, p a = false) :
    List.find? p as = none :=
  List.find?_eq_none.mpr (fun x hx => by simp [h x hx])

/-- The backward scan of lookupVar returns the most recently appended
binding of a name: any binding appended after it must carry a different
name for it to be found. -/
theorem lookupVar_middle (pre post : Vars) (n : String) (v : Int)
    (h : ∀ q ∈ post, q.1 ≠ n) :
    lookupVar (pre ++ (n, v) :: post) n = some (n, v) := by
  unfold lookupVar
  rw [List.reverse_append, List.reverse_cons]
  rw [show post.reverse ++ [(n, v)] ++ pre.reverse
      = post.reverse ++ ((n, v) :: pre.reverse) by simp]
  rw [find?_append_of_forall_false _ _ _ ?_]
  · simp [List.find?]
  · intro q hq
    simp only [List.mem_reverse] at hq
    simpa using h q hq

/-- lookupVar fails when no binding carries the name. -/
theorem lookupVar_not_found (vars : Vars) (n : String)
    (h : ∀ q ∈ vars, q.1 ≠ n) :
    lookupVar vars n = none := by
  unfold lookupVar
  apply find?_eq_none_of_forall_false
  intro q hq
  simp only [List.mem_reverse] at hq
  simpa using h q hq

/-- The zip-driven argument loop of the Call arm equals sequential
left-to-right evaluation of the first (parameter-count) argument
expressions in the caller's scope, paired positionally with the
parameter names.  In particular argument expressions beyond the
parameter count are never evaluated. -/
theorem evalArgsWith_eq_seq (eE : Expr → Vars → EvalRes) :
    ∀ (args : List Expr) (ps : List Param) (vars : Vars),
    evalArgsWith eE args ps vars =
      match evalSeq eE (args.take ps.length) vars with
      | none => none
      | some (.error er) => some (.error er)
      | some (.ok vs) => some (.ok (List.zip (ps.map Param.name) vs)) := by
  intro args
  induction args with
  | nil => intro ps vars; simp [evalArgsWith, evalSeq]
  | cons e es ih =>
    intro ps vars
    cases ps with
    | nil => simp [evalArgsWith, evalSeq]
    | cons p ps =>
      simp only [evalArgsWith, List.length_cons, List.take_succ_cons, evalSeq]
      cases eE e vars with
      | none => rfl
      | some r =>
        cases r with
        | error er => rfl
        | ok v =>
          rw [ih ps vars]
          cases hseq : evalSeq eE (es.take ps.length) vars with
          | none => rfl
          | some r2 =>
            cases r2 with
            | error er => rfl
            | ok vs => simp [List.zip]

/-- Greedy repetition yields the empty list without consuming input when
the repeated parser fails at the current position. -/
theorem pmany_fail {α : Type} (p : P α) (toks : List Token)
    (h : p toks = none) :
    ∀ fuel, pmany p fuel toks = some ([], toks) := by
  intro fuel
  cases fuel with
  | zero => rfl
  | succ n => simp [pmany, h]

/-- The unsigned-to-signed reinterpretation is the identity below
2^31. -/
theorem u32ToI32_small (v : Nat) (h : v < 2147483648) :
    u32ToI32 v = (v : Int) := by
  unfold u32ToI32 wrap32
  have hlt : (v : Int) < 2147483648 := by exact_mod_cast h
  have hnn : (0 : Int) ≤ (v : Int) := Int.natCast_nonneg v
  rw [Int.emod_eq_of_lt (by omega) (by omega)]
  omega

/-- A function-table hit is exactly membership of the key among the
stored names. -/
theorem findFunc_isSome_iff_mem (acc : Funcs) (n : String) :
    (findFunc acc n).isSome = true ↔ n ∈ acc.map Prod.fst := by
  induction acc with
  | nil => simp [findFunc, List.find?]
  | cons a as ih =>
    by_cases heq : a.1 = n
    · simp [findFunc, List.find?, heq]
    · have hne : (a.1 == n) = false := by simp [heq]
      simp only [findFunc, List.find?, hne, List.map_cons, List.mem_cons]
      show (findFunc as n).isSome = true ↔ n = a.1 ∨ n ∈ as.map Prod.fst
      rw [ih]
      constructor
      · intro hmem; exact Or.inr hmem
      · intro hmem
        cases hmem with
        | inl heq2 => exact absurd heq2.symm heq
        | inr hmem => exact hmem

/-- The load loop fails with the first function name that repeats a name
already in the table. -/
theorem loadFuncsGo_dup :
    ∀ (defs : List Definition) (acc : Funcs) (n : String),
    firstDup (acc.map Prod.fst) (funcNames defs) = some n →
    loadFuncsGo acc defs = .error (.dupFunc n) := by
  intro defs
  induction defs with
  | nil => intro acc n h; simp [funcNames, firstDup] at h
  | cons d rest ih =>
    intro acc n h
    cases d with
    | Struct sn sps =>
      simp only [funcNames, List.filterMap_cons] at h
      exact ih acc n h
    | Func f =>
      simp only [funcNames, List.filterMap_cons] at h
      simp only [firstDup] at h
      simp only [loadFuncsGo]
      cases hc : (acc.map Prod.fst).contains f.name with
      | true =>
        rw [hc] at h
        simp at h
        have hmem : f.name ∈ acc.map Prod.fst := by
          have hc2 : List.elem f.name (acc.map Prod.fst) = true := hc
          rw [List.elem_eq_mem] at hc2
          exact of_decide_eq_true hc2
        have hsome : (findFunc acc f.name).isSome = true :=
          (findFunc_isSome_iff_mem acc f.name).mpr hmem
        obtain ⟨r, hr⟩ := Option.isSome_iff_exists.mp hsome
        rw [hr]
        rw [h]
      | false =>
        rw [hc] at h
        simp at h
        have hnotmem : f.name ∉ acc.map Prod.fst := by
          intro hmem
          have hc2 : List.elem f.name (acc.map Prod.fst) = false := hc
          rw [List.elem_eq_mem] at hc2
          simp [hmem] at hc2
        have hnone : findFunc acc f.name = none := by
          cases hfind : findFunc acc f.name with
          | none => rfl
          | some r =>
            exact absurd ((findFunc_isSome_iff_mem acc f.name).mp
              (by simp [hfind])) hnotmem
        rw [hnone]
        apply ih
        rw [List.map_append]
        simpa using h

/-- A list with a duplicate always has a first duplicate. -/
theorem firstDup_isSome :
    ∀ (names seen : List String), seen.Nodup → ¬ (seen ++ names).Nodup →
    (firstDup seen names).isSome = true := by
  intro names
  induction names with
  | nil => intro seen h1 h2; simp at h2; exact absurd h1 h2
  | cons n rest ih =>
    intro seen h1 h2
    simp only [firstDup]
    cases hc : seen.contains n with
    | true => simp
    | false =>
      simp only [Bool.false_eq_true, if_false]
      have hn : n ∉ seen := by
        intro hmem
        have hc2 : List.elem n seen = false := hc
        rw [List.elem_eq_mem] at hc2
        simp [hmem] at hc2
      apply ih (seen ++ [n])
      · simp [List.nodup_append, h1, hn]
      · intro hcon
        apply h2
        rw [show seen ++ n :: rest = (seen ++ [n]) ++ rest by simp]
        exact hcon

/-- Replacing every function body leaves the declared function names
unchanged. -/
theorem funcNames_mapBodies (g : List Statement → List Statement) (ast : Ast) :
    funcNames ((mapBodies g ast).defs) = funcNames ast.defs := by
  unfold mapBodies funcNames
  induction ast.defs with
  | nil => rfl
  | cons d rest ih =>
    cases d with
    | Struct sn sps => simpa using ih
    | Func f => simpa using ih

/-- Unfolding of the evaluator at successor fuel. -/
theorem evalExpr_succ (funcs : Funcs) (fuel : Nat) :
    evalExpr funcs (fuel + 1) = evalExprStep funcs (evalExpr funcs fuel) := rfl

/-- The Call arm of the evaluator, in equation form. -/
theorem evalExprStep_call (funcs : Funcs) (prev : Expr → Vars → EvalRes)
    (name : String) (args : List Expr) (vars : Vars) :
    evalExprStep funcs prev (.Call name args) vars =
      match findFunc funcs name with
      | none => some (.error (.unknownFunc name))
      | some (_, f) =>
        match evalArgsWith prev args f.params vars with
        | none => none
        | some (.error er) => some (.error er)
        | some (.ok fvars) => evalFuncWith prev f.body fvars := rfl

/-- The Var arm of the evaluator, in equation form. -/
theorem evalExprStep_var (funcs : Funcs) (prev : Expr → Vars → EvalRes)
    (name : String) (vars : Vars) :
    evalExprStep funcs prev (.Var name) vars =
      match lookupVar vars name with
      | none => some (.error (.undeclaredVar name))
      | some p => some (.ok p.2) := rfl

/-- The Div arm of the evaluator, in equation form. -/
theorem evalExprStep_div (funcs : Funcs) (prev : Expr → Vars → EvalRes)
    (l r : Expr) (vars : Vars) :
    evalExprStep funcs prev (.Div l r) vars =
      match prev l vars with
      | none => none
      | some (.error er) => some (.error er)
      | some (.ok a) =>
        match prev r vars with
        | none => none
        | some (.error er) => some (.error er)
        | some (.ok b) =>
          if b = 0 then some (.error .divByZero)
          else if a = -2147483648 ∧ b = -1 then some (.error .divOverflow)
          else some (.ok (Int.tdiv a b)) := rfl

/-- The Int arm of the evaluator, in equation form. -/
theorem evalExprStep_int (funcs : Funcs) (prev : Expr → Vars → EvalRes)
    (v : Nat) (vars : Vars) :
    evalExprStep funcs prev (.Int v) vars = some (.ok (u32ToI32 v)) := rfl

/-- The body loop on a nonempty statement list, in equation form. -/
theorem evalFuncWith_cons (eE : Expr → Vars → EvalRes) (s : Statement)
    (rest : List Statement) (vars : Vars) :
    evalFuncWith eE (s :: rest) vars =
      match evalStmtWith eE s vars with
      | none => none
      | some (.error er) => some (.error er)
      | some (.ok (_, some v)) => some (.ok v)
      | some (.ok (vars2, none)) => evalFuncWith eE rest vars2 := rfl

/-- The Assign arm of statement evaluation, in equation form. -/
theorem evalStmtWith_assign (eE : Expr → Vars → EvalRes) (ty name : String)
    (e : Expr) (vars : Vars) :
    evalStmtWith eE (.Assign ty name e) vars =
      match eE e vars with
      | none => none
      | some (.error er) => some (.error er)
      | some (.ok v) => some (.ok (vars ++ [(name, v)], none)) := rfl

/-- The Return arm of statement evaluation, in equation form. -/
theorem evalStmtWith_return (eE : Expr → Vars → EvalRes) (e : Expr)
    (vars : Vars) :
    evalStmtWith eE (.Return e) vars =
      match eE e vars with
      | none => none
      | some (.error er) => some (.error er)
      | some (.ok v) => some (.ok (vars, some v)) := rfl

/-!
Claim theorems.
-/

/-- Claim C1 (corrected): for a call whose callee is in the function
table, the first min(#args, #params) argument expressions are evaluated
left-to-right in the caller's current scope — argument expressions
beyond the callee's parameter count are not evaluated at all — each
evaluated argument is paired positionally with the callee's declared
parameter names to form the callee's fresh local scope, and the callee
body is then evaluated in that fresh scope, which contains nothing but
those pairs (no visibility into the caller's bindings). -/
theorem call_scope_semantics (funcs : Funcs) (fuel : Nat) (name : String)
    (args : List Expr) (vars : Vars) (nm : String) (f : Func)
    (hf : findFunc funcs name = some (nm, f)) :
    evalExpr funcs (fuel + 1) (.Call name args) vars =
      match evalSeq (evalExpr funcs fuel) (args.take f.params.length) vars with
      | none => none
      | some (.error er) => some (.error er)
      | some (.ok vs) =>
        evalFuncWith (evalExpr funcs fuel) f.body
          (List.zip (f.params.map Param.name) vs) := by
  rw [evalExpr_succ, evalExprStep_call, hf]
  change (match evalArgsWith (evalExpr funcs fuel) args f.params vars with
    | none => none
    | some (Except.error er) => some (Except.error er)
    | some (Except.ok fvars) => evalFuncWith (evalExpr funcs fuel) f.body fvars) = _
  rw [evalArgsWith_eq_seq]
  cases hseq : evalSeq (evalExpr funcs fuel) (args.take f.params.length) vars with
  | none => rfl
  | some r =>
    cases r with
    | error er => rfl
    | ok vs => rfl

/-- Claim C1, witness: the call semantics theorem applied to the
one-argument call `g(5)` of `int g(int x) { return x; }`. -/
theorem call_scope_semantics_instance :
    evalExpr tableGx 3 (.Call "g" [.Int 5]) [] =
      match evalSeq (evalExpr tableGx 2) ([Expr.Int 5].take funcGx.params.length) [] with
      | none => none
      | some (.error er) => some (.error er)
      | some (.ok vs) =>
        evalFuncWith (evalExpr tableGx 2) funcGx.body
          (List.zip (funcGx.params.map Param.name) vs) :=
  call_scope_semantics tableGx 2 "g" [.Int 5] [] "g" funcGx rfl

/-- Claim C1, counterexample to the unamended claim: in the call
`f(1 / 0)` of the zero-parameter `int f() { return 7; }` the (excess)
argument expression `1 / 0` is never evaluated — the call succeeds with
7 even though evaluating the argument would fail fatally with the
division-by-zero failure. -/
theorem call_excess_arg_not_evaluated :
    evalExpr tableF7 3 (.Call "f" [.Div (.Int 1) (.Int 0)]) [] = some (.ok 7) ∧
    evalExpr tableF7 3 (.Div (.Int 1) (.Int 0)) [] = some (.error .divByZero) :=
  ⟨rfl, rfl⟩

/-- Claim C7 (confirmed): call arity is never checked.  First conjunct:
a call behaves exactly like the same call truncated to the callee's
parameter count (excess arguments are silently discarded, without even
being evaluated, and evaluation proceeds).  Second conjunct: a call with
fewer arguments than parameters proceeds without any arity error when
the unbound parameter is never read.  Third conjunct: reading an unbound
parameter is exactly the fatal undeclared-variable failure. -/
theorem call_arity_unchecked :
    (∀ (funcs : Funcs) (fuel : Nat) (name : String) (args : List Expr)
      (vars : Vars) (nm : String) (f : Func),
      findFunc funcs name = some (nm, f) →
      evalExpr funcs (fuel + 1) (.Call name args) vars =
        evalExpr funcs (fuel + 1) (.Call name (args.take f.params.length)) vars) ∧
    (∀ (funcs : Funcs) (fuel : Nat) (name : String) (vars : Vars)
      (nm : String) (f : Func) (p : Param) (rest : List Param) (k : Nat),
      findFunc funcs name = some (nm, f) → f.params = p :: rest →
      f.body = [.Return (.Int k)] →
      evalExpr funcs (fuel + 2) (.Call name []) vars = some (.ok (u32ToI32 k))) ∧
    (∀ (funcs : Funcs) (fuel : Nat) (name : String) (vars : Vars)
      (nm : String) (f : Func) (p : Param) (rest : List Param),
      findFunc funcs name = some (nm, f) → f.params = p :: rest →
      f.body = [.Return (.Var p.name)] →
      evalExpr funcs (fuel + 2) (.Call name []) vars
        = some (.error (.undeclaredVar p.name))) := by
  refine ⟨?_, ?_, ?_⟩
  · intro funcs fuel name args vars nm f hf
    rw [evalExpr_succ, evalExprStep_call, evalExprStep_call, hf]
    change (match evalArgsWith (evalExpr funcs fuel) args f.params vars with
      | none => none
      | some (Except.error er) => some (Except.error er)
      | some (Except.ok fvars) => evalFuncWith (evalExpr funcs fuel) f.body fvars)
      = (match evalArgsWith (evalExpr funcs fuel) (args.take f.params.length) f.params vars with
      | none => none
      | some (Except.error er) => some (Except.error er)
      | some (Except.ok fvars) => evalFuncWith (evalExpr funcs fuel) f.body fvars)
    rw [evalArgsWith_eq_seq, evalArgsWith_eq_seq]
    rw [List.take_take, min_self]
  · intro funcs fuel name vars nm f p rest k hf _hp hb
    rw [show fuel + 2 = (fuel + 1) + 1 from rfl, evalExpr_succ, evalExprStep_call, hf]
    change evalFuncWith (evalExpr funcs (fuel + 1)) f.body [] = _
    rw [hb]
    rfl
  · intro funcs fuel name vars nm f p rest hf _hp hb
    rw [show fuel + 2 = (fuel + 1) + 1 from rfl, evalExpr_succ, evalExprStep_call, hf]
    change evalFuncWith (evalExpr funcs (fuel + 1)) f.body [] = _
    rw [hb]
    rfl

/-- Claim C7, witness: the three conjuncts of the arity theorem applied
to concrete calls — `g(1, 2)` with one declared parameter, the
zero-argument call `h()` of `int h(int y) { return 9; }`, and the
zero-argument call `g()` of `int g(int x) { return x; }`. -/
theorem call_arity_unchecked_instance :
    (evalExpr tableGx 3 (.Call "g" [.Int 1, .Int 2]) [] =
      evalExpr tableGx 3 (.Call "g" ([Expr.Int 1, Expr.Int 2].take funcGx.params.length)) []) ∧
    (evalExpr tableH9 3 (.Call "h" []) [] = some (.ok (u32ToI32 9))) ∧
    (evalExpr tableGx 3 (.Call "g" []) [] = some (.error (.undeclaredVar "x"))) :=
  ⟨call_arity_unchecked.1 tableGx 2 "g" [.Int 1, .Int 2] [] "g" funcGx rfl,
   call_arity_unchecked.2.1 tableH9 1 "h" [] "h" funcH9 ⟨"y", "int"⟩ [] 9 rfl rfl rfl,
   call_arity_unchecked.2.2 tableGx 1 "g" [] "g" funcGx ⟨"x", "int"⟩ [] rfl rfl rfl⟩

/-- Claim C3 (confirmed): variable lookup scans the local scope from the
most recently appended binding backward.  First conjunct: the latest
binding of a name wins over anything before it.  Second conjunct: a name
with no binding is the fatal undeclared-variable failure.  Third
conjunct: after two sequential Assigns to one name, the function body
returns the later value, never the earlier one. -/
theorem var_lookup_semantics :
    (∀ (funcs : Funcs) (fuel : Nat) (name : String) (pre post : Vars) (v : Int),
      (∀ q ∈ post, q.1 ≠ name) →
      evalExpr funcs (fuel + 1) (.Var name) (pre ++ (name, v) :: post)
        = some (.ok v)) ∧
    (∀ (funcs : Funcs) (fuel : Nat) (name : String) (vars : Vars),
      (∀ q ∈ vars, q.1 ≠ name) →
      evalExpr funcs (fuel + 1) (.Var name) vars
        = some (.error (.undeclaredVar name))) ∧
    (∀ (funcs : Funcs) (fuel : Nat) (t1 t2 name : String) (e1 e2 : Expr)
      (vars : Vars) (a b : Int),
      evalExpr funcs (fuel + 1) e1 vars = some (.ok a) →
      evalExpr funcs (fuel + 1) e2 (vars ++ [(name, a)]) = some (.ok b) →
      evalFuncWith (evalExpr funcs (fuel + 1))
        [.Assign t1 name e1, .Assign t2 name e2, .Return (.Var name)] vars
        = some (.ok b)) := by
  refine ⟨?_, ?_, ?_⟩
  · intro funcs fuel name pre post v h
    rw [evalExpr_succ, evalExprStep_var, lookupVar_middle pre post name v h]
  · intro funcs fuel name vars h
    rw [evalExpr_succ, evalExprStep_var, lookupVar_not_found vars name h]
  · intro funcs fuel t1 t2 name e1 e2 vars a b h1 h2
    rw [evalFuncWith_cons, evalStmtWith_assign, h1]
    show evalFuncWith (evalExpr funcs (fuel + 1))
      [.Assign t2 name e2, .Return (.Var name)] (vars ++ [(name, a)])
      = some (.ok b)
    rw [evalFuncWith_cons, evalStmtWith_assign, h2]
    show evalFuncWith (evalExpr funcs (fuel + 1)) [.Return (.Var name)]
      ((vars ++ [(name, a)]) ++ [(name, b)]) = some (.ok b)
    have hv : evalExpr funcs (fuel + 1) (.Var name)
        ((vars ++ [(name, a)]) ++ [(name, b)]) = some (.ok b) := by
      rw [evalExpr_succ, evalExprStep_var]
      rw [show (vars ++ [(name, a)]) ++ [(name, b)]
          = (vars ++ [(name, a)]) ++ (name, b) :: [] from rfl]
      rw [lookupVar_middle (vars ++ [(name, a)]) [] name b (by simp)]
    rw [evalFuncWith_cons, evalStmtWith_return, hv]

/-- Claim C3, witness: the three conjuncts applied concretely — lookup
in the scope [(y, 1), (x, 5), (z, 2)], lookup of an absent name, and the
body `int v = 1; int v = 2; return v;` returning 2. -/
theorem var_lookup_semantics_instance :
    (evalExpr [] 1 (.Var "x") ([("y", 1)] ++ ("x", 5) :: [("z", 2)])
      = some (.ok 5)) ∧
    (evalExpr [] 1 (.Var "w") [("y", 1), ("z", 2)]
      = some (.error (.undeclaredVar "w"))) ∧
    (evalFuncWith (evalExpr [] 1)
      [.Assign "int" "v" (.Int 1), .Assign "int" "v" (.Int 2),
        .Return (.Var "v")] [] = some (.ok 2)) :=
  ⟨var_lookup_semantics.1 [] 0 "x" [("y", 1)] [("z", 2)] 5 (by decide),
   var_lookup_semantics.2.1 [] 0 "w" [("y", 1), ("z", 2)] (by decide),
   var_lookup_semantics.2.2 [] 0 "int" "int" "v" (.Int 1) (.Int 2) [] 1 2 rfl rfl⟩

/-- Claim C4 (corrected): Div first evaluates both operands; with a zero
divisor it fails fatally with the division-by-zero failure; with a
nonzero divisor it yields the truncating (toward-zero) quotient in every
case except dividend -2^31 with divisor -1, whose quotient 2^31 is not
representable in 32 bits and which fails fatally with the
division-overflow failure. -/
theorem div_semantics (funcs : Funcs) (fuel : Nat) (l r : Expr) (vars : Vars)
    (a b : Int)
    (hl : evalExpr funcs fuel l vars = some (.ok a))
    (hr : evalExpr funcs fuel r vars = some (.ok b)) :
    (b = 0 → evalExpr funcs (fuel + 1) (.Div l r) vars
      = some (.error .divByZero)) ∧
    (b ≠ 0 → a = -2147483648 ∧ b = -1 →
      evalExpr funcs (fuel + 1) (.Div l r) vars
        = some (.error .divOverflow)) ∧
    (b ≠ 0 → ¬(a = -2147483648 ∧ b = -1) →
      evalExpr funcs (fuel + 1) (.Div l r) vars
        = some (.ok (Int.tdiv a b))) := by
  refine ⟨?_, ?_, ?_⟩
  · intro hb0
    rw [evalExpr_succ, evalExprStep_div, hl, hr]
    simp [hb0]
  · intro hb0 hovf
    rw [evalExpr_succ, evalExprStep_div, hl, hr]
    simp [hb0, hovf]
  · intro hb0 hovf
    rw [evalExpr_succ, evalExprStep_div, hl, hr]
    simp [hb0, hovf]

/-- Claim C4, witness: the division theorem applied to `10 / 3`
(yielding the truncated quotient 3) and to `10 / 0` (the fatal
division-by-zero failure). -/
theorem div_semantics_instance :
    (evalExpr [] 2 (.Div (.Int 10) (.Int 3)) [] = some (.ok 3)) ∧
    (evalExpr [] 2 (.Div (.Int 10) (.Int 0)) [] = some (.error .divByZero)) :=
  ⟨(div_semantics [] 1 (.Int 10) (.Int 3) [] 10 3 rfl rfl).2.2
      (by decide) (by decide),
   (div_semantics [] 1 (.Int 10) (.Int 0) [] 10 0 rfl rfl).1 rfl⟩

/-- Claim C4, counterexample to the unamended claim: the divisor -1 is
nonzero, yet `2147483648 / (-1)` — whose dividend evaluates to the
signed reinterpretation -2^31 — does not evaluate to the truncating
quotient 2^31 but fails fatally with the division-overflow failure (a
Rust i32 division panic in every build profile). -/
theorem div_overflow_not_quotient :
    evalExpr [] 3 (.Neg (.Int 1)) [] = some (.ok (-1)) ∧
    ((-1 : Int) ≠ 0) ∧
    evalExpr [] 3 (.Div (.Int 2147483648) (.Neg (.Int 1))) []
      = some (.error .divOverflow) :=
  ⟨rfl, by decide, rfl⟩

/-- Claim C8 (corrected): evaluating an Int literal node reinterprets
its unsigned 32-bit value as a signed 32-bit integer; for every value
below 2^31 the result is the value itself and is non-negative. -/
theorem int_literal_semantics (funcs : Funcs) (fuel : Nat) (vars : Vars)
    (v : Nat) (h : v < 2147483648) :
    evalExpr funcs (fuel + 1) (.Int v) vars = some (.ok (v : Int)) ∧
      0 ≤ (v : Int) := by
  constructor
  · rw [evalExpr_succ, evalExprStep_int, u32ToI32_small v h]
  · exact Int.natCast_nonneg v

/-- Claim C8, witness: the literal 5 evaluates to the non-negative 5. -/
theorem int_literal_semantics_instance :
    evalExpr [] 1 (.Int 5) [] = some (.ok 5) ∧ 0 ≤ (5 : Int) :=
  int_literal_semantics [] 0 [] 5 (by decide)

/-- Claim C8, counterexample to the unamended claim: the Int node with
(digit-only) literal value 2147483648 = 2^31 evaluates to the negative
value -2^31, refuting "evaluating Int never yields a negative
result". -/
theorem int_literal_negative :
    evalExpr [] 1 (.Int 2147483648) [] = some (.ok (-2147483648)) ∧
      (-2147483648 : Int) < 0 :=
  ⟨rfl, by decide⟩

/-- Claim C2 (confirmed): `return 2 + 3 * 4;` parses with * binding
tighter than +, every program whose main body is that statement exits
with 14, and unary minus binds tighter than the binary operators:
`-2 + 3` parses as (-2) + 3 and evaluates to 1 while `-(2 + 3)`
evaluates to -5. -/
theorem precedence_semantics :
    (parseStatement 12 toksRet14 = some (.Return expr14, [])) ∧
    (parseExpr 12 toks14 = some (expr14, [])) ∧
    (∀ (ast : Ast) (table : Funcs) (nm : String) (f : Func) (fuel : Nat),
      loadFuncs ast.defs = .ok table → findFunc table "main" = some (nm, f) →
      f.body = [.Return expr14] →
      run_main (fuel + 3) ast = some (.ok 14)) ∧
    (parseExpr 12 toksNeg2Plus3 = some (exprNeg2Plus3, []) ∧
      ∀ (funcs : Funcs) (vars : Vars) (fuel : Nat),
        evalExpr funcs (fuel + 3) exprNeg2Plus3 vars = some (.ok 1)) ∧
    (parseExpr 12 toksNegParen = some (exprNegParen, []) ∧
      ∀ (funcs : Funcs) (vars : Vars) (fuel : Nat),
        evalExpr funcs (fuel + 3) exprNegParen vars = some (.ok (-5))) := by
  refine ⟨rfl, rfl, ?_, ⟨rfl, ?_⟩, ⟨rfl, ?_⟩⟩
  · intro ast table nm f fuel hload hfind hbody
    unfold run_main
    rw [hload]
    show (match findFunc table "main" with
      | none => some (Except.error RunError.noMain)
      | some (_, mainF) => evalFunc table (fuel + 3) mainF []) = _
    rw [hfind]
    show evalFuncWith (evalExpr table (fuel + 3)) f.body [] = _
    rw [hbody, evalFuncWith_cons, evalStmtWith_return]
    rw [show evalExpr table (fuel + 3) expr14 [] = some (.ok 14) from rfl]
  · intro funcs vars fuel
    rfl
  · intro funcs vars fuel
    rfl

/-- Claim C2, witness: the program `int main() { return 2 + 3 * 4; }`
exits with 14, and the two unary-minus examples evaluate to 1 and -5. -/
theorem precedence_semantics_instance :
    run_main 3 astMain14 = some (.ok 14) ∧
    evalExpr [] 3 exprNeg2Plus3 [] = some (.ok 1) ∧
    evalExpr [] 3 exprNegParen [] = some (.ok (-5)) :=
  ⟨precedence_semantics.2.2.1 astMain14 [("main", ⟨"main", [], "int", [.Return expr14]⟩)]
      "main" ⟨"main", [], "int", [.Return expr14]⟩ 0 rfl rfl rfl,
   precedence_semantics.2.2.2.1.2 [] [] 0,
   precedence_semantics.2.2.2.2.2 [] [] 0⟩

/-- Claim C5 (confirmed): a program with two Func definitions of the
same name fails fatally at load time with a duplicate-definition
failure, at every fuel and for every replacement of every function body
— so before any statement of any body can execute. -/
theorem duplicate_name_load_failure (ast : Ast)
    (h : ¬ (funcNames ast.defs).Nodup) :
    ∃ n, ∀ (fuel : Nat) (g : List Statement → List Statement),
      run_main fuel (mapBodies g ast) = some (.error (.dupFunc n)) := by
  have hs : (firstDup [] (funcNames ast.defs)).isSome = true :=
    firstDup_isSome (funcNames ast.defs) [] (by simp) (by simpa using h)
  obtain ⟨n, hn⟩ := Option.isSome_iff_exists.mp hs
  refine ⟨n, fun fuel g => ?_⟩
  have hload : loadFuncsGo [] (mapBodies g ast).defs = .error (.dupFunc n) := by
    apply loadFuncsGo_dup
    rw [funcNames_mapBodies]
    simpa using hn
  unfold run_main loadFuncs
  rw [hload]

/-- Claim C5, witness: the theorem applied to the program with two Func
definitions named f. -/
theorem duplicate_name_load_failure_instance :
    ¬ (funcNames astDupF.defs).Nodup ∧
    ∃ n, ∀ (fuel : Nat) (g : List Statement → List Statement),
      run_main fuel (mapBodies g astDupF) = some (.error (.dupFunc n)) :=
  ⟨by decide, duplicate_name_load_failure astDupF (by decide)⟩

/-- Claim C6 (corrected): after a successful load, a missing "main"
entry is the fatal missing-main failure at every fuel (before any
execution), and a present "main" — of any parameter count, arity is not
checked — is invoked on its body with the initially empty local
scope. -/
theorem main_entry_semantics :
    (∀ (ast : Ast) (fuel : Nat) (table : Funcs),
      loadFuncs ast.defs = .ok table → findFunc table "main" = none →
      run_main fuel ast = some (.error .noMain)) ∧
    (∀ (ast : Ast) (fuel : Nat) (table : Funcs) (nm : String) (f : Func),
      loadFuncs ast.defs = .ok table → findFunc table "main" = some (nm, f) →
      run_main fuel ast = evalFuncWith (evalExpr table fuel) f.body []) := by
  constructor
  · intro ast fuel table hload hfind
    unfold run_main
    rw [hload]
    show (match findFunc table "main" with
      | none => some (Except.error RunError.noMain)
      | some (_, mainF) => evalFunc table fuel mainF []) = _
    rw [hfind]
  · intro ast fuel table nm f hload hfind
    unfold run_main
    rw [hload]
    show (match findFunc table "main" with
      | none => some (Except.error RunError.noMain)
      | some (_, mainF) => evalFunc table fuel mainF []) = _
    rw [hfind]
    rfl

/-- Claim C6, witness: the entry theorem applied to a program without
main (the fatal missing-main failure) and to a program whose main takes
one parameter (invoked on the empty scope all the same). -/
theorem main_entry_semantics_instance :
    run_main 1 astNoMain = some (.error .noMain) ∧
    run_main 1 astMainOneParam =
      evalFuncWith
        (evalExpr [("main", ⟨"main", [⟨"x", "int"⟩], "int", [.Return (.Int 7)]⟩)] 1)
        [.Return (.Int 7)] [] :=
  ⟨main_entry_semantics.1 astNoMain 1 [("f", ⟨"f", [], "int", [.Return (.Int 1)]⟩)]
      rfl rfl,
   main_entry_semantics.2 astMainOneParam 1
      [("main", ⟨"main", [⟨"x", "int"⟩], "int", [.Return (.Int 7)]⟩)]
      "main" ⟨"main", [⟨"x", "int"⟩], "int", [.Return (.Int 7)]⟩ rfl rfl⟩

/-- Claim C6, counterexample to the unamended claim: a program whose
only definition is the ONE-parameter `int main(int x) { return 7; }`
runs to completion with exit value 7 — evaluation does not require a
zero-parameter main. -/
theorem main_with_parameter_runs :
    run_main 1 astMainOneParam = some (.ok 7) ∧
    astMainOneParam.defs =
      [.Func ⟨"main", [⟨"x", "int"⟩], "int", [.Return (.Int 7)]⟩] :=
  ⟨rfl, rfl⟩

/-- Claim C10 (confirmed): the program grammar requires at least one
definition; whenever no Definition can be parsed at the head of the
token stream — in particular on the empty stream — no Program is
produced. -/
theorem no_definition_no_program (fuel : Nat) (toks : List Token)
    (h : parseDefinition fuel toks = none) :
    parseAst fuel toks = none := by
  unfold parseAst
  rw [pmany_fail (parseDefinition fuel) toks h fuel]
  simp

/-- Claim C10, witness: the empty token stream parses to no Program. -/
theorem no_definition_no_program_instance :
    parseDefinition 3 [] = none ∧ parseAst 3 [] = none :=
  ⟨rfl, no_definition_no_program 3 [] rfl⟩

set_option maxHeartbeats 2000000

mutual

/-- Decoding inverts encoding on expressions. -/
theorem decode_encode_expr : ∀ (e : Expr), decodeExpr (encodeExpr e) = some e
  | .Err => rfl
  | .Int v => rfl
  | .Neg e => by
    rw [encodeExpr]
    rw [decodeExpr]
    rw [decode_encode_expr e]
  | .Mul a b => by
    rw [encodeExpr, decodeExpr, decode_encode_expr a, decode_encode_expr b]
  | .Div a b => by
    rw [encodeExpr, decodeExpr, decode_encode_expr a, decode_encode_expr b]
  | .Add a b => by
    rw [encodeExpr, decodeExpr, decode_encode_expr a, decode_encode_expr b]
  | .Sub a b => by
    rw [encodeExpr, decodeExpr, decode_encode_expr a, decode_encode_expr b]
  | .Var n => rfl
  | .Call n ps => by
    rw [encodeExpr, decodeExpr, decode_encode_exprList ps]

/-- Decoding inverts encoding on expression lists. -/
theorem decode_encode_exprList :
    ∀ (es : List Expr), decodeExprList (encodeExprList es) = some es
  | [] => rfl
  | e :: es => by
    rw [encodeExprList, decodeExprList, decode_encode_expr e,
      decode_encode_exprList es]

end

/-- Decoding inverts encoding on statements. -/
theorem decode_encode_statement (s : Statement) :
    decodeStatement (encodeStatement s) = some s := by
  cases s with
  | Invalid => rfl
  | Return e =>
    rw [encodeStatement, decodeStatement, decode_encode_expr e]
  | Assign ty name e =>
    rw [encodeStatement, decodeStatement, decode_encode_expr e]

/-- Decoding inverts encoding on statement lists. -/
theorem decode_encode_statementList (ss : List Statement) :
    decodeStatementList (ss.map encodeStatement) = some ss := by
  induction ss with
  | nil => rfl
  | cons s ss ih =>
    rw [List.map_cons, decodeStatementList, decode_encode_statement s, ih]

/-- Decoding inverts encoding on parameters. -/
theorem decode_encode_param (p : Param) :
    decodeParam (encodeParam p) = some p := rfl

/-- Decoding inverts encoding on parameter lists. -/
theorem decode_encode_paramList (ps : List Param) :
    decodeParamList (ps.map encodeParam) = some ps := by
  induction ps with
  | nil => rfl
  | cons p ps ih =>
    rw [List.map_cons, decodeParamList, decode_encode_param p, ih]

/-- Decoding inverts encoding on function definitions. -/
theorem decode_encode_func (f : Func) :
    decodeFunc (encodeFunc f) = some f := by
  rw [encodeFunc, decodeFunc, decode_encode_paramList f.params,
    decode_encode_statementList f.body]

/-- Decoding inverts encoding on top-level definitions. -/
theorem decode_encode_definition (d : Definition) :
    decodeDefinition (encodeDefinition d) = some d := by
  cases d with
  | Struct name ps =>
    rw [encodeDefinition, decodeDefinition, decode_encode_paramList ps]
  | Func f =>
    rw [encodeDefinition, decodeDefinition, decode_encode_func f]

/-- Decoding inverts encoding on definition lists. -/
theorem decode_encode_definitionList (ds : List Definition) :
    decodeDefinitionList (ds.map encodeDefinition) = some ds := by
  induction ds with
  | nil => rfl
  | cons d ds ih =>
    rw [List.map_cons, decodeDefinitionList, decode_encode_definition d, ih]

/-- Claim C9 (confirmed): encoding a Program to the structured
field-named serialized form and decoding it back yields exactly the
original tree (every field of every variant round-trips), so the
decoded tree evaluates to the same result as the original at every
fuel. -/
theorem serialization_round_trip (ast : Ast) :
    decodeAst (encodeAst ast) = some ast ∧
    ∀ (a2 : Ast) (fuel : Nat), decodeAst (encodeAst ast) = some a2 →
      run_main fuel a2 = run_main fuel ast := by
  have hrt : decodeAst (encodeAst ast) = some ast := by
    rw [encodeAst, decodeAst, decode_encode_definitionList ast.defs]
  refine ⟨hrt, fun a2 fuel h => ?_⟩
  rw [hrt] at h
  cases h
  rfl

/-- Claim C9, witness: the round trip applied to the concrete program
`int main() { return 2 + 3 * 4; }`. -/
theorem serialization_round_trip_instance :
    decodeAst (encodeAst astMain14) = some astMain14 ∧
    run_main 3 astMain14 = run_main 3 astMain14 :=
  ⟨(serialization_round_trip astMain14).1,
   (serialization_round_trip astMain14).2 astMain14 3
     (serialization_round_trip astMain14).1⟩
